import Mathlib

/-!
Verification of the SuperFW NDS flasher tool (`source/main.c`, `source/sha256.c`)
against its natural-language specification.

The C code is shallowly embedded: `uint32_t` arithmetic becomes `Nat` with
explicit `% 2^32`, byte buffers become `List Nat` (each element a byte value)
or `Nat → Nat` read functions, and the memory-mapped hardware state touched by
the flash operations (bus owner, mapping mode) becomes an explicit state record
threaded through the operations. Volatile hardware reads (the flash status
polls) are modelled as read streams `Nat → Nat` supplied as parameters.
-/

/-! ## SHA-256 (`source/sha256.c`) -/

/-- Modulus of the C `uint32_t` arithmetic. -/
def M32 : Nat := 4294967296

/-- The C macro `rotr(x, a) = ((x) >> (a)) | ((x) << (32-(a)))` on `uint32_t`. -/
def rotr (x a : Nat) : Nat := (x >>> a) ||| ((x <<< (32 - a)) % M32)

/-- `sha256_kinit`: the initial hash state (source lines 36–39); the
source's hex constants `0x6a09e667, …` written in decimal. -/
def sha256_kinit : List Nat :=
  [1779033703, 3144134277, 1013904242, 2773480762,
   1359893119, 2600822924, 528734635, 1541459225]

/-- `sha256k`: the 64 round constants (source lines 41–50); the source's
hex constants `0x428a2f98, …` written in decimal. -/
def sha256k : List Nat :=
  [1116352408, 1899447441, 3049323471, 3921009573, 961987163, 1508970993,
   2453635748, 2870763221, 3624381080, 310598401, 607225278, 1426881987,
   1925078388, 2162078206, 2614888103, 3248222580, 3835390401, 4022224774,
   264347078, 604807628, 770255983, 1249150122, 1555081692, 1996064986,
   2554220882, 2821834349, 2952996808, 3210313671, 3336571891, 3584528711,
   113926993, 338241895, 666307205, 773529912, 1294757372, 1396182291,
   1695183700, 1986661051, 2177026350, 2456956037, 2730485921, 2820302411,
   3259730800, 3345764771, 3516065817, 3600352804, 4094571909, 275423344,
   430227734, 506948616, 659060556, 883997877, 958139571, 1322822218,
   1537002063, 1747873779, 1955562222, 2024104815, 2227730452, 2361852424,
   2428436474, 2756734187, 3204031479, 3329325298]

/-- Load of the `i`-th 32-bit word of a block, big-endian: the source performs
a host (little-endian) 32-bit load followed by `read32be` (`bswap32`), which
composes to a big-endian byte assembly; on a big-endian host both macros are
the identity and the composition is the same. -/
def read32be (data : List Nat) (i : Nat) : Nat :=
  data.getD (4 * i) 0 * 16777216 + data.getD (4 * i + 1) 0 * 65536 +
  data.getD (4 * i + 2) 0 * 256 + data.getD (4 * i + 3) 0

/-- Body of the 64-round loop of `sha256_transform` (source lines 61–87):
round `i` maps the schedule window `w` (16 words) and working state `ls`
(8 words) to their updated values. -/
def sha256_round (i : Nat) (w ls : List Nat) : List Nat × List Nat :=
  let widx := i % 16
  let l0 := ls.getD 0 0
  let l1 := ls.getD 1 0
  let l2 := ls.getD 2 0
  let l3 := ls.getD 3 0
  let l4 := ls.getD 4 0
  let l5 := ls.getD 5 0
  let l6 := ls.getD 6 0
  let l7 := ls.getD 7 0
  let s1 := rotr l4 6 ^^^ rotr l4 11 ^^^ rotr l4 25
  let ch := (l4 &&& l5) ^^^ (((M32 - 1) ^^^ l4) &&& l6)
  let t1 := (l7 + s1 + ch + sha256k.getD i 0 + w.getD widx 0) % M32
  let s0 := rotr l0 2 ^^^ rotr l0 13 ^^^ rotr l0 22
  let mj := (l0 &&& l1) ^^^ (l0 &&& l2) ^^^ (l1 &&& l2)
  let t2 := (s0 + mj) % M32
  let w1 := w.getD ((i + 1) % 16) 0
  let w9 := w.getD ((i + 9) % 16) 0
  let w14 := w.getD ((i + 14) % 16) 0
  let wn := (w.getD widx 0 +
             (w9 + (rotr w1 7 ^^^ rotr w1 18 ^^^ (w1 >>> 3)) +
              (rotr w14 17 ^^^ rotr w14 19 ^^^ (w14 >>> 10)))) % M32
  (w.set widx wn,
   [(t1 + t2) % M32, l0, l1, l2, (l3 + t1) % M32, l4, l5, l6])

/-- `sha256_transform` (source lines 52–91): one compression of a 64-byte
block (given as its list of byte values) into the 8-word state. -/
def sha256_transform (state data : List Nat) : List Nat :=
  let w := (List.range 16).map (read32be data)
  let fin := (List.range 64).foldl (fun p i => sha256_round i p.1 p.2) (w, state)
  (state.zip fin.2).map fun p => (p.1 + p.2) % M32

/-- The `while (length >= 64)` loop of `sha256_internal` (source lines
100–104), with a structural fuel argument (any fuel at least the number of
remaining bytes makes the recursion run to the loop's exit condition):
consume full 64-byte blocks, returning the updated state and the remaining
partial block. -/
def sha256_chunks_go (state : List Nat) : Nat → List Nat → List Nat × List Nat
  | 0, msg => (state, msg)
  | fuel + 1, msg =>
    if 64 ≤ msg.length then
      sha256_chunks_go (sha256_transform state (msg.take 64)) fuel (msg.drop 64)
    else
      (state, msg)

/-- The `while (length >= 64)` loop of `sha256_internal`, entered with the
whole message. -/
def sha256_chunks (state msg : List Nat) : List Nat × List Nat :=
  sha256_chunks_go state msg.length msg

/-- The 8 bytes stored by `tmp.u64[7] = read64be(bitlen)` (source line 121):
the 64-bit value laid out big-endian. `bitlen` itself is computed by
`length << 3` in 32-bit `unsigned` arithmetic (source line 95) and only then
widened to `uint64_t`, hence the `% 2^32`. -/
def bitlenBytes (length : Nat) : List Nat :=
  let bitlen := (length <<< 3) % M32
  [bitlen >>> 56 % 256, bitlen >>> 48 % 256, bitlen >>> 40 % 256, bitlen >>> 32 % 256,
   bitlen >>> 24 % 256, bitlen >>> 16 % 256, bitlen >>> 8 % 256, bitlen % 256]

/-- The final block(s) fed to `sha256_transform` by the tail of
`sha256_internal` (source lines 106–122), as a function of the remaining
partial block `rest` (length 0–63) and the total message length: the `tmp`
union holds `rest`, then `0x80`, zero-filled; when `rest.length ≥ 56` the
length field no longer fits and a first block is flushed and `tmp` zeroed;
finally bytes 56–63 receive the big-endian bit length. -/
def sha256_tail_blocks (rest : List Nat) (length : Nat) : List (List Nat) :=
  if 56 ≤ rest.length then
    [rest ++ 0x80 :: List.replicate (63 - rest.length) 0,
     List.replicate 56 0 ++ bitlenBytes length]
  else
    [rest ++ 0x80 :: List.replicate (55 - rest.length) 0 ++ bitlenBytes length]

/-- `sha256_internal` (source lines 93–123): state after all blocks,
including the padded tail blocks. -/
def sha256_internal (msg : List Nat) : List Nat :=
  let sr := sha256_chunks sha256_kinit msg
  (sha256_tail_blocks sr.2 msg.length).foldl sha256_transform sr.1

/-- Big-endian byte emission of one 32-bit state word: the output conversion
`state[i] = read32be(state[i])` (source lines 132–133) stores each word's
bytes most-significant first. -/
def be32bytes (w : Nat) : List Nat :=
  [w / 16777216 % 256, w / 65536 % 256, w / 256 % 256, w % 256]

/-- `sha256sum` (source lines 127–134): the 32 digest bytes of a message. -/
def sha256sum (msg : List Nat) : List Nat :=
  ((sha256_internal msg).map be32bytes).flatten

/-! ## Address permutation (`source/main.c` lines 36–46) -/

/-- `addr_perm`: the flash address-bus wire permutation. All shifted
summands stay below `2^32`, so the `uint32_t` expression needs no reduction
for 32-bit inputs. -/
def addr_perm (addr : Nat) : Nat :=
  (addr &&& 0xFFFFFE02) |||
  ((addr &&& 0x001) <<< 7) |||
  ((addr &&& 0x004) <<< 4) |||
  ((addr &&& 0x008) <<< 2) |||
  ((addr &&& 0x010) >>> 4) |||
  ((addr &&& 0x020) >>> 3) |||
  ((addr &&& 0x040) <<< 2) |||
  ((addr &&& 0x080) >>> 3) |||
  ((addr &&& 0x100) >>> 5)

/-- The wiring table actually realized by `addr_perm` on the 9 low bits:
(source bit, destination bit) pairs. -/
def addr_perm_table : List (Nat × Nat) :=
  [(0, 7), (1, 1), (2, 6), (3, 5), (4, 0), (5, 2), (6, 8), (7, 4), (8, 3)]

/-! ## Supercard bus owner and mapping mode (`source/main.c`) -/

/-- `MAPPED_FIRMWARE` (source line 19). -/
def MAPPED_FIRMWARE : Nat := 0

/-- `MAPPED_SDRAM` (source line 20). -/
def MAPPED_SDRAM : Nat := 1

/-- The hardware state the flash operations save, mutate and restore: the
cartridge-bus owner (`true` = ARM9 owns the cart bus, per `sysGetCartOwner`
at source lines 48–50) and the Supercard mapping mode programmed through
`REG_SD_MODE` (source lines 52–65): mapped area (0 = internal flash,
1 = SDRAM), write access, and the SD-card interface bit. -/
structure ScState where
  owner9 : Bool
  mapped : Nat
  writeAccess : Bool
  sdcard : Bool
deriving DecidableEq, Repr

/-- `sysGetCartOwner` (source lines 48–50): read the current bus owner. -/
def sysGetCartOwner (s : ScState) : Bool := s.owner9

/-- `sysSetCartOwner` (libnds): set the bus-owner bit of `REG_EXMEMCNT`. -/
def sysSetCartOwner (owner : Bool) (s : ScState) : ScState :=
  { s with owner9 := owner }

/-- `set_supercard_mode` (source lines 52–65): the net effect on the mode
state of the magic-sentinel double-write handshake (the sentinel `0xA55A`
and the mode value are each written twice to `REG_SD_MODE`; the latched
result is the requested mode). -/
def set_supercard_mode (mapped_area : Nat) (write_access sdcard_interface : Bool)
    (s : ScState) : ScState :=
  { s with mapped := mapped_area, writeAccess := write_access, sdcard := sdcard_interface }

/-- The state in which `flash_dump`'s `memcpy` (source line 233) and
`flash_validate`'s `memcmp` (source line 220) execute: after the operation's
entry sequence `sysSetCartOwner(BUS_OWNER_ARM9)` followed by
`set_supercard_mode(MAPPED_FIRMWARE, true, false)` (source lines 228–230 and
216–218). -/
def dump_copy_state (s0 : ScState) : ScState :=
  set_supercard_mode MAPPED_FIRMWARE true false (sysSetCartOwner true s0)

/-- The C `memcmp(img, (uint8_t*)0x08000000, n) == 0` comparison of an image
against the mapped flash bytes (`flash` gives the byte at each offset from
the mapped base). -/
def memcmp_eq (flash : Nat → Nat) (img : List Nat) : Bool :=
  (List.range img.length).all fun i => img.getD i 0 == flash i

/-- `flash_validate` (source lines 214–224): saves the owner, acquires the
bus for the ARM9, enters write-enabled flash mode and returns the byte
comparison. The restore calls at source lines 222–223 sit after the
`return` of line 220 and are unreachable, so the state in which the caller
continues is the one set at line 218. -/
def flash_validate (flash : Nat → Nat) (fwimg : List Nat) (s0 : ScState) :
    Bool × ScState :=
  let s2 := dump_copy_state s0
  (memcmp_eq flash fwimg, s2)

/-- `flash_dump` (source lines 226–249), with the file output of lines
238–247 outside the model: the raw 512 KiB copy from the mapped base runs in
`dump_copy_state` (where the mapped area is the internal flash, so the reads
return flash bytes), then the mode is set back to read-only flash and the
saved owner is restored — both before any file I/O can fail. -/
def flash_dump (flash : Nat → Nat) (s0 : ScState) : List Nat × ScState :=
  let s2 := dump_copy_state s0
  let data := (List.range (512 * 1024)).map flash
  let s3 := set_supercard_mode MAPPED_FIRMWARE false false s2
  (data, sysSetCartOwner (sysGetCartOwner s0) s3)

/-- The erase completion poll of `flash_erase` (source lines 134–138): up to
60*1000 iterations, each testing `SLOT2_BASE_U16[0] == SLOT2_BASE_U16[0]`,
two volatile reads of the status location. `r` is the stream of values the
successive reads return and `t` the count of reads already issued; the
result is the read counter at loop exit (stable pair seen, or budget
exhausted). -/
def erase_poll (r : Nat → Nat) : Nat → Nat → Nat
  | 0, t => t
  | fuel + 1, t => if r t = r (t + 1) then t + 2 else erase_poll r fuel (t + 2)

/-- `flash_erase` (source lines 116–148): enter write-enabled flash mode,
issue the unlock and full-chip-erase command writes (lines 126–131, bus
writes with no observable result in the model), poll for completion, read
`retok` from one further pair of status reads (line 139), reset, restore
mode and owner. -/
def flash_erase (r : Nat → Nat) (s0 : ScState) : Bool × ScState :=
  let s2 := set_supercard_mode MAPPED_FIRMWARE true false (sysSetCartOwner true s0)
  let t := erase_poll r (60 * 1000) 0
  let retok := r t == r (t + 1)
  let s3 := set_supercard_mode MAPPED_FIRMWARE false false s2
  (retok, sysSetCartOwner (sysGetCartOwner s0) s3)

/-- The scan loop of `flash_erase_check` (source lines 158–163) over the
flash contents as 16-bit words (`mem` gives the word at each word index):
`errf` becomes true and the loop breaks at the first word that differs from
`0xFFFF`. Also returns how many words the loop read before returning. -/
def erase_check_go (mem : Nat → Nat) : Nat → Nat → Bool × Nat
  | _, 0 => (false, 0)
  | i, fuel + 1 =>
    if mem i ≠ 0xFFFF then
      (true, 1)
    else
      let p := erase_check_go mem (i + 1) fuel
      (p.1, p.2 + 1)

/-- `flash_erase_check` (source lines 151–169): scans the full 512 KiB range
16 bits at a time (`for (i = 0; i < 512*1024; i += 2)` reading word `i/2`,
i.e. word indices `0` to `262143`), returning `true` when some word is not
fully erased, plus the state after the restore sequence. -/
def flash_erase_check (mem : Nat → Nat) (s0 : ScState) : (Bool × Nat) × ScState :=
  let s2 := set_supercard_mode MAPPED_FIRMWARE true false (sysSetCartOwner true s0)
  let res := erase_check_go mem 0 (256 * 1024)
  (res, sysSetCartOwner (sysGetCartOwner s0) (set_supercard_mode MAPPED_FIRMWARE false false s2))

/-- The 16-bit value `flash_write` assembles at source line 183 from the
buffer bytes at offsets `i` and `i+1` (`buf` gives the input buffer byte at
each offset, reduced `% 256` as `uint8_t`). -/
def flash_word (buf : Nat → Nat) (i : Nat) : Nat :=
  (buf i % 256) ||| ((buf (i + 1) % 256) <<< 8)

/-- The word loop of `flash_write` (source lines 182–206). `dev` is the
device model: for a word index and the 16-bit value written there, it
returns the outcome the code observes — whether the completion poll of
lines 193–197 timed out (`notfinished`) and the value the readback at line
202 returns. The result is the final `ok` flag and the list of word indices
for which a program command sequence (lines 185–190) was issued, in order.
The fuel only needs to cover the remaining iterations (`size` always
does). -/
def flash_write_go (dev : Nat → Nat → Bool × Nat) (buf : Nat → Nat) (size : Nat) :
    Nat → Nat → Bool × List Nat
  | _, 0 => (true, [])
  | i, fuel + 1 =>
    if i < size then
      let value := flash_word buf i
      let o := dev (i / 2) value
      if o.1 ∨ o.2 ≠ value then
        (false, [i / 2])
      else
        let p := flash_write_go dev buf size (i + 2) fuel
        (p.1, i / 2 :: p.2)
    else (true, [])

/-- `flash_write` (source lines 172–212): the word loop wrapped in the
owner/mode save–set–restore sequence. -/
def flash_write (dev : Nat → Nat → Bool × Nat) (buf : Nat → Nat) (size : Nat)
    (s0 : ScState) : (Bool × List Nat) × ScState :=
  let s2 := set_supercard_mode MAPPED_FIRMWARE true false (sysSetCartOwner true s0)
  let res := flash_write_go dev buf size 0 size
  (res, sysSetCartOwner (sysGetCartOwner s0) (set_supercard_mode MAPPED_FIRMWARE false false s2))

/-- The input-buffer byte offsets the word-assembly line 183 of
`flash_write` reads when the loop runs to completion: offsets `i` and `i+1`
for each even `i < size`. -/
def flash_write_reads_go (size : Nat) : Nat → Nat → List Nat
  | _, 0 => []
  | i, fuel + 1 =>
    if i < size then i :: (i + 1) :: flash_write_reads_go size (i + 2) fuel else []

/-- All input-buffer byte offsets read by a full run of `flash_write`'s
word loop. -/
def flash_write_reads (size : Nat) : List Nat := flash_write_reads_go size 0 size

/-- `flash_ident` (source lines 89–113): enter write-enabled flash mode,
issue the reset and autoselect unlock writes, read the two 16-bit ID words
at permuted addresses `0x000` and `0x001` (`r` gives the 16-bit value the
device returns at each address, reduced `% 2^16`), reset, restore. -/
def flash_ident (r : Nat → Nat) (s0 : ScState) : Nat × ScState :=
  let s2 := set_supercard_mode MAPPED_FIRMWARE true false (sysSetCartOwner true s0)
  let ret := ((r (addr_perm 0x000) % 65536) <<< 16) ||| (r (addr_perm 0x001) % 65536)
  let s3 := set_supercard_mode MAPPED_FIRMWARE false false s2
  (ret, sysSetCartOwner (sysGetCartOwner s0) s3)

/-- A status-read stream refuting C7's "exactly when": every pair of
consecutive reads inside the polling budget differs (the 120000 in-loop
reads return 0, 1, 2, …), yet the pair the code reads after the loop
(reads 120000 and 120001) is stable. -/
def neverStableThenStable : Nat → Nat := fun n => if n < 120000 then n else 42

/-- The abort condition `flash_write` tests at source line 202 for the word
at byte index `i`: the completion poll timed out (`notfinished`), or the
readback differs from the value written. -/
def word_fails (dev : Nat → Nat → Bool × Nat) (buf : Nat → Nat) (i : Nat) : Prop :=
  (dev (i / 2) (flash_word buf i)).1 ∨
  (dev (i / 2) (flash_word buf i)).2 ≠ flash_word buf i

instance (dev : Nat → Nat → Bool × Nat) (buf : Nat → Nat) (i : Nat) :
    Decidable (word_fails dev buf i) := by
  unfold word_fails
  infer_instance

/-! ## Reference SHA-256, modelled from the spec (§4.2), for claim C4 -/

/-- Modelled from the spec: the 8 bytes of the 64-bit big-endian bit length
appended by standard SHA-256 padding. -/
def be64bytes (n : Nat) : List Nat :=
  [n / 2 ^ 56 % 256, n / 2 ^ 48 % 256, n / 2 ^ 40 % 256, n / 2 ^ 32 % 256,
   n / 2 ^ 24 % 256, n / 2 ^ 16 % 256, n / 2 ^ 8 % 256, n % 256]

/-- Modelled from the spec: standard SHA-256 padding — a single `0x80`
byte, the minimal zero fill, then the 64-bit big-endian bit length of the
original message, reaching a multiple of 64 bytes. -/
def sha256_ref_pad (msg : List Nat) : List Nat :=
  msg ++ 0x80 :: List.replicate ((119 - msg.length % 64) % 64) 0
      ++ be64bytes (8 * msg.length)

/-- Modelled from the spec: big-endian load of word `t` of a 64-byte
block. -/
def sha256_ref_word (blk : List Nat) (t : Nat) : Nat :=
  blk.getD (4 * t) 0 * 2 ^ 24 + blk.getD (4 * t + 1) 0 * 2 ^ 16 +
  blk.getD (4 * t + 2) 0 * 2 ^ 8 + blk.getD (4 * t + 3) 0

/-- Modelled from the spec: the standard 64-entry message schedule of one
block of standard SHA-256, built as a full array (entries 16–63 from the
recurrence over entries `t-2`, `t-7`, `t-15`, `t-16`). -/
def sha256_ref_schedule (blk : List Nat) : List Nat :=
  (List.range 48).foldl
    (fun w _ =>
      let n := w.length
      let w2 := w.getD (n - 2) 0
      let w7 := w.getD (n - 7) 0
      let w15 := w.getD (n - 15) 0
      let w16 := w.getD (n - 16) 0
      let s0 := rotr w15 7 ^^^ rotr w15 18 ^^^ (w15 >>> 3)
      let s1 := rotr w2 17 ^^^ rotr w2 19 ^^^ (w2 >>> 10)
      w ++ [(w16 + s0 + w7 + s1) % M32])
    ((List.range 16).map (sha256_ref_word blk))

/-- Modelled from the spec: one standard SHA-256 compression, with the
standard round function over working variables a–h and the literal round
constant table, followed by the feed-forward addition. -/
def sha256_ref_compress (state blk : List Nat) : List Nat :=
  let w := sha256_ref_schedule blk
  let ls := (List.range 64).foldl
    (fun ls t =>
      let a := ls.getD 0 0
      let b := ls.getD 1 0
      let c := ls.getD 2 0
      let d := ls.getD 3 0
      let e := ls.getD 4 0
      let f := ls.getD 5 0
      let g := ls.getD 6 0
      let h := ls.getD 7 0
      let bigs1 := rotr e 6 ^^^ rotr e 11 ^^^ rotr e 25
      let ch := (e &&& f) ^^^ (((M32 - 1) ^^^ e) &&& g)
      let temp1 := (h + bigs1 + ch + sha256k.getD t 0 + w.getD t 0) % M32
      let bigs0 := rotr a 2 ^^^ rotr a 13 ^^^ rotr a 22
      let mj := (a &&& b) ^^^ (a &&& c) ^^^ (b &&& c)
      let temp2 := (bigs0 + mj) % M32
      [(temp1 + temp2) % M32, a, b, c, (d + temp1) % M32, e, f, g])
    state
  (state.zip ls).map fun p => (p.1 + p.2) % M32

/-- Modelled from the spec: the standard SHA-256 digest of a message — pad,
split into 64-byte blocks, compress each in order from the standard initial
state, and emit the 8 state words big-endian. -/
def sha256_ref (msg : List Nat) : List Nat :=
  let padded := sha256_ref_pad msg
  let blocks := (List.range (padded.length / 64)).map
    fun b => (padded.drop (64 * b)).take 64
  ((blocks.foldl sha256_ref_compress sha256_kinit).map be32bytes).flatten

/-- `known_images` (source lines 251–267): the ordered fingerprint table —
display name and the first 16 bytes of the expected image SHA-256. -/
def known_images : List (String × List Nat) :=
  [("Empty/Zeroed",
    [0x07, 0x85, 0x4d, 0x2f, 0xef, 0x29, 0x7a, 0x06,
     0xba, 0x81, 0x68, 0x5e, 0x66, 0x0c, 0x33, 0x2d]),
   ("Empty/Cleared",
    [0x04, 0x3e, 0x23, 0x8a, 0x76, 0x5f, 0x7c, 0xfb,
     0xc6, 0x25, 0x96, 0xa5, 0x0e, 0x53, 0xc8, 0xff]),
   ("Official firmware v1.85 (EN)",
    [0xc1, 0x1d, 0x86, 0x4d, 0x39, 0xa4, 0x58, 0x60,
     0xa7, 0xc5, 0xc3, 0x4c, 0xa6, 0x65, 0xa9, 0xc1])]

/-- `firmware_ident` (source lines 269–280): hash the 512 KiB of mapped
flash contents and return the name of the first table entry, in table
order, whose 16-byte fingerprint equals the first 16 bytes of the digest
(`memcmp` of 16 bytes), or none. Settling claim C9 about this function
would require kernel evaluation of 8192 compressions per buffer and a
collision-freeness argument for the flipped-byte cases; see the results
table. -/
def firmware_ident (flash : Nat → Nat) : Option String :=
  let hash := sha256sum ((List.range (512 * 1024)).map flash)
  (known_images.find? fun e => hash.take 16 == e.2).map Prod.fst

/-! ## Theorems -/

/-- Results of `addr_perm` fit in 32 bits. -/
theorem addr_perm_lt {a : Nat} (ha : a < 2 ^ 32) : addr_perm a < 2 ^ 32 := by
  have h0 : a &&& 0xFFFFFE02 ≤ a := Nat.and_le_left
  have h1 : a &&& 0x001 ≤ 0x001 := Nat.and_le_right
  have h2 : a &&& 0x004 ≤ 0x004 := Nat.and_le_right
  have h3 : a &&& 0x008 ≤ 0x008 := Nat.and_le_right
  have h4 : a &&& 0x010 ≤ 0x010 := Nat.and_le_right
  have h5 : a &&& 0x020 ≤ 0x020 := Nat.and_le_right
  have h6 : a &&& 0x040 ≤ 0x040 := Nat.and_le_right
  have h7 : a &&& 0x080 ≤ 0x080 := Nat.and_le_right
  have h8 : a &&& 0x100 ≤ 0x100 := Nat.and_le_right
  unfold addr_perm
  repeat' apply Nat.or_lt_two_pow
  all_goals omega

/-- Bit-level characterization of `addr_perm` on 32-bit inputs: bits 9–31
(and anything above, vacuously) pass through unchanged, bit 1 passes through
unchanged, and each of the 9 low source bits lands on the destination given
by `addr_perm_table`. -/
theorem addr_perm_bits {a : Nat} (ha : a < 2 ^ 32) :
    (∀ j, 9 ≤ j → (addr_perm a).testBit j = a.testBit j) ∧
    (addr_perm a).testBit 1 = a.testBit 1 ∧
    ∀ p ∈ addr_perm_table, (addr_perm a).testBit p.2 = a.testBit p.1 := by
  refine ⟨fun j hj => ?_, ?_, ?_⟩
  · by_cases hj32 : j < 32
    · interval_cases j <;>
        (simp only [addr_perm, Nat.testBit_or, Nat.testBit_and, Nat.testBit_shiftLeft,
          Nat.testBit_shiftRight]; simp [Nat.testBit_to_div_mod])
    · have hja : a < 2 ^ j :=
        lt_of_lt_of_le ha (Nat.pow_le_pow_right (by norm_num) (by omega))
      have hjp : addr_perm a < 2 ^ j :=
        lt_of_lt_of_le (addr_perm_lt ha) (Nat.pow_le_pow_right (by norm_num) (by omega))
      rw [Nat.testBit_lt_two_pow hja, Nat.testBit_lt_two_pow hjp]
  · simp only [addr_perm, Nat.testBit_or, Nat.testBit_and, Nat.testBit_shiftLeft,
      Nat.testBit_shiftRight]
    simp [Nat.testBit_to_div_mod]
  · simp only [addr_perm_table, List.mem_cons, List.not_mem_nil, or_false]
    rintro p (rfl | rfl | rfl | rfl | rfl | rfl | rfl | rfl | rfl) <;>
      (simp only [addr_perm, Nat.testBit_or, Nat.testBit_and, Nat.testBit_shiftLeft,
        Nat.testBit_shiftRight]; simp [Nat.testBit_to_div_mod])

/-- C2 counterexample: the claimed table entry "bit6→2" is false of the
code. For the input with only bit 6 set, `addr_perm` produces `0x100`:
output bit 2 is clear and output bit 8 is set (bit6→8, not bit6→2). -/
theorem claim_C2_counterexample :
    Nat.testBit 0x40 6 = true ∧ addr_perm 0x40 = 0x100 ∧
    (addr_perm 0x40).testBit 2 = false ∧ (addr_perm 0x40).testBit 8 = true := by
  decide

/-- C2 (amended): `addr_perm` is pure and total on 32-bit inputs; the top 23
bits (bits 9–31) and bit 1 pass through unchanged, and the 9 low bits are
scattered per the fixed table `addr_perm_table`: bit0→7, bit2→6, bit3→5,
bit4→0, bit5→2, bit6→8 (not bit6→2 as claimed), bit7→4, bit8→3. -/
theorem claim_C2 {a : Nat} (ha : a < 2 ^ 32) :
    (∀ j, 9 ≤ j → (addr_perm a).testBit j = a.testBit j) ∧
    (addr_perm a).testBit 1 = a.testBit 1 ∧
    ∀ p ∈ addr_perm_table, (addr_perm a).testBit p.2 = a.testBit p.1 :=
  addr_perm_bits ha

/-- Witness for C2 at the concrete input `0x12345678`. -/
theorem claim_C2_witness :
    (addr_perm 0x12345678).testBit 10 = Nat.testBit 0x12345678 10 ∧
    (addr_perm 0x12345678).testBit 1 = Nat.testBit 0x12345678 1 ∧
    (addr_perm 0x12345678).testBit 7 = Nat.testBit 0x12345678 0 := by
  have h := claim_C2 (a := 0x12345678) (by norm_num)
  exact ⟨h.1 10 (by norm_num), h.2.1, h.2.2 (0, 7) (by simp [addr_perm_table])⟩

/-- Restore-on-exit, where the code does implement it: `flash_ident`,
`flash_erase`, `flash_erase_check`, `flash_write` and `flash_dump` all
return with the mode back to read-only mapped flash and the bus owner saved
at entry restored, for every entry state and device behaviour. (The
exception, `flash_validate`, is the subject of claim C1.) -/
theorem flash_ops_restore (s0 : ScState) (r mem buf : Nat → Nat)
    (dev : Nat → Nat → Bool × Nat) (size : Nat) :
    (flash_ident r s0).2 = ⟨s0.owner9, MAPPED_FIRMWARE, false, false⟩ ∧
    (flash_erase r s0).2 = ⟨s0.owner9, MAPPED_FIRMWARE, false, false⟩ ∧
    (flash_erase_check mem s0).2 = ⟨s0.owner9, MAPPED_FIRMWARE, false, false⟩ ∧
    (flash_write dev buf size s0).2 = ⟨s0.owner9, MAPPED_FIRMWARE, false, false⟩ ∧
    (flash_dump mem s0).2 = ⟨s0.owner9, MAPPED_FIRMWARE, false, false⟩ :=
  ⟨rfl, rfl, rfl, rfl, rfl⟩

/-- C1 (code-bug evidence): `flash_validate` violates the restore-on-exit
invariant. Called with the ARM7 owning the bus and read-only flash mode, it
returns with write access still enabled and the ARM9 still owning the bus:
the restore calls at source lines 222–223 sit behind the `return` of line
220 and never execute, while every sibling operation does restore. -/
theorem claim_C1_validate_not_restored :
    (flash_validate (fun _ => 0) [] ⟨false, MAPPED_FIRMWARE, false, false⟩).2.writeAccess
        = true ∧
    (flash_validate (fun _ => 0) [] ⟨false, MAPPED_FIRMWARE, false, false⟩).2.owner9 = true ∧
    (⟨false, MAPPED_FIRMWARE, false, false⟩ : ScState).owner9 = false :=
  ⟨rfl, rfl, rfl⟩

/-- C5 counterexample: the read-back copy does not run with write access
disabled. At a concrete entry state, the state in which `flash_dump` copies
and `flash_validate` compares has the write-access bit set: both enter via
`set_supercard_mode(MAPPED_FIRMWARE, true, false)`. -/
theorem claim_C5_counterexample :
    (dump_copy_state ⟨false, MAPPED_SDRAM, false, true⟩).writeAccess = true := rfl

/-- C5 (amended): `readBack` maps the device with the internal flash
mapped and the SD interface unmapped, but with write access ENABLED (not
disabled as claimed), and performs the raw copy in that state:
`flash_dump` copies exactly the 512 KiB of bytes from the mapped base. -/
theorem claim_C5 (flash : Nat → Nat) (s0 : ScState) :
    (dump_copy_state s0).mapped = MAPPED_FIRMWARE ∧
    (dump_copy_state s0).writeAccess = true ∧
    (dump_copy_state s0).sdcard = false ∧
    (flash_dump flash s0).1 = (List.range (512 * 1024)).map flash :=
  ⟨rfl, rfl, rfl, by simp only [flash_dump]⟩

/-- If every read pair tested inside a poll of `fuel` iterations differs,
the poll exhausts its budget, consuming two reads per iteration. -/
theorem erase_poll_exhaust (r : Nat → Nat) :
    ∀ fuel t, (∀ k, k < fuel → r (t + 2 * k) ≠ r (t + 2 * k + 1)) →
      erase_poll r fuel t = t + 2 * fuel := by
  intro fuel
  induction fuel with
  | zero => intro t _; simp [erase_poll]
  | succ n ih =>
    intro t h
    have h0 : r t ≠ r (t + 1) := by simpa using h 0 (Nat.succ_pos n)
    have hrec := ih (t + 2) (fun k hk => by
      have hp := h (k + 1) (by omega)
      have e1 : t + 2 * (k + 1) = t + 2 + 2 * k := by omega
      rwa [e1] at hp)
    simp only [erase_poll, if_neg h0, hrec]
    omega

/-- The poll consumes at most two reads per budgeted iteration. -/
theorem erase_poll_le (r : Nat → Nat) :
    ∀ fuel t, erase_poll r fuel t ≤ t + 2 * fuel := by
  intro fuel
  induction fuel with
  | zero => intro t; simp [erase_poll]
  | succ n ih =>
    intro t
    simp only [erase_poll]
    split
    · omega
    · have := ih (t + 2)
      omega

/-- A poll whose first read pair matches exits after those two reads. -/
theorem erase_poll_stable (r : Nat → Nat) (fuel t : Nat) (h : r t = r (t + 1)) :
    erase_poll r (fuel + 1) t = t + 2 := by
  simp [erase_poll, h]

/-- C7 counterexample: on `neverStableThenStable` the budget is exhausted
before any two consecutive status reads return an identical value — every
pair tested by the 60000 polling iterations differs — yet `flash_erase`
returns success, because the returned flag comes from one further read pair
issued after the loop (source line 139), which here is stable. The claim's
"returns failure exactly when the budget is exhausted before two
consecutive reads return an identical value" is therefore false. -/
theorem claim_C7_counterexample :
    (∀ i, i < 60 * 1000 →
      neverStableThenStable (2 * i) ≠ neverStableThenStable (2 * i + 1)) ∧
    (flash_erase neverStableThenStable ⟨false, MAPPED_FIRMWARE, false, false⟩).1 = true := by
  have hpairs : ∀ i, i < 60 * 1000 →
      neverStableThenStable (2 * i) ≠ neverStableThenStable (2 * i + 1) := by
    intro i hi
    have h1 : 2 * i < 120000 := by omega
    have h2 : 2 * i + 1 < 120000 := by omega
    simp only [neverStableThenStable, if_pos h1, if_pos h2]
    omega
  refine ⟨hpairs, ?_⟩
  have ht : erase_poll neverStableThenStable (60 * 1000) 0 = 120000 := by
    have h := erase_poll_exhaust neverStableThenStable (60 * 1000) 0 (fun k hk => by
      simpa using hpairs k hk)
    simpa using h
  simp only [flash_erase, ht]
  decide

/-- C7 (amended): the erase poll runs for at most 60000 iterations (at most
120000 status reads), and the returned flag is the outcome of one
additional pair of consecutive status reads issued after the loop — so on a
device whose consecutive reads never match the operation terminates with
failure, and on a device whose reads are all equal it returns success. -/
theorem claim_C7 (r : Nat → Nat) (s0 : ScState) :
    erase_poll r (60 * 1000) 0 ≤ 2 * (60 * 1000) ∧
    ((∀ t, r t ≠ r (t + 1)) → (flash_erase r s0).1 = false) ∧
    ((∀ t t', r t = r t') → (flash_erase r s0).1 = true) := by
  refine ⟨by simpa using erase_poll_le r (60 * 1000) 0, fun h => ?_, fun h => ?_⟩
  · have ht : erase_poll r (60 * 1000) 0 = 120000 := by
      have hx := erase_poll_exhaust r (60 * 1000) 0 (fun k _ => h (0 + 2 * k))
      simpa using hx
    simp only [flash_erase, ht]
    exact beq_eq_false_iff_ne.mpr (h 120000)
  · have e : (60 : Nat) * 1000 = 59999 + 1 := by norm_num
    have ht : erase_poll r (60 * 1000) 0 = 2 := by
      rw [e, erase_poll_stable r 59999 0 (h 0 1)]
    simp only [flash_erase, ht]
    exact beq_iff_eq.mpr (h 2 3)

/-- Witness for C7: a stream with all-distinct consecutive reads yields
failure; a constant stream yields success. -/
theorem claim_C7_witness :
    (flash_erase (fun t => t) ⟨false, MAPPED_FIRMWARE, false, false⟩).1 = false ∧
    (flash_erase (fun _ => 7) ⟨false, MAPPED_FIRMWARE, false, false⟩).1 = true :=
  ⟨(claim_C7 (fun t => t) _).2.1 (fun t => by omega),
   (claim_C7 (fun _ => 7) _).2.2 (fun _ _ => rfl)⟩

/-- Characterization of the erase-check scan loop: starting at word index
`i` with `fuel` words to go, the dirty flag is true iff some word in range
differs from `0xFFFF`; a fully clean range is scanned entirely; and the
scan stops immediately after the first dirty word. -/
theorem erase_check_go_spec (mem : Nat → Nat) :
    ∀ fuel i,
      ((erase_check_go mem i fuel).1 = true ↔ ∃ k, k < fuel ∧ mem (i + k) ≠ 0xFFFF) ∧
      ((∀ k, k < fuel → mem (i + k) = 0xFFFF) → (erase_check_go mem i fuel).2 = fuel) ∧
      (∀ k, k < fuel → mem (i + k) ≠ 0xFFFF → (∀ j, j < k → mem (i + j) = 0xFFFF) →
        (erase_check_go mem i fuel).2 = k + 1) := by
  intro fuel
  induction fuel with
  | zero =>
    intro i
    exact ⟨by simp [erase_check_go], fun _ => by simp [erase_check_go],
           fun k hk => by omega⟩
  | succ n ih =>
    intro i
    by_cases h0 : mem i = 0xFFFF
    · have hrec := ih (i + 1)
      have hunf : erase_check_go mem i (n + 1)
          = ((erase_check_go mem (i + 1) n).1, (erase_check_go mem (i + 1) n).2 + 1) := by
        simp [erase_check_go, if_neg (not_not_intro h0)]
      refine ⟨?_, fun hc => ?_, fun k hk hd hbefore => ?_⟩
      · rw [hunf]
        simp only
        rw [hrec.1]
        constructor
        · rintro ⟨k, hk, hd⟩
          exact ⟨k + 1, by omega, by
            have e : i + (k + 1) = i + 1 + k := by omega
            rwa [e]⟩
        · rintro ⟨k, hk, hd⟩
          match k with
          | 0 => exact absurd (by simpa using h0) hd
          | k' + 1 =>
            exact ⟨k', by omega, by
              have e : i + 1 + k' = i + (k' + 1) := by omega
              rwa [e]⟩
      · rw [hunf]
        simp only
        rw [hrec.2.1 (fun k hk => by
          have hp := hc (k + 1) (by omega)
          have e : i + (k + 1) = i + 1 + k := by omega
          rwa [e] at hp)]
      · match k with
        | 0 => exact absurd (by simpa using h0) hd
        | k' + 1 =>
          rw [hunf]
          simp only
          rw [hrec.2.2 k' (by omega) (by
              have e : i + 1 + k' = i + (k' + 1) := by omega
              rwa [e])
            (fun j hj => by
              have hp := hbefore (j + 1) (by omega)
              have e : i + (j + 1) = i + 1 + j := by omega
              rwa [e] at hp)]
    · have hunf : erase_check_go mem i (n + 1) = (true, 1) := by
        simp [erase_check_go, h0]
      refine ⟨?_, fun hc => ?_, fun k hk hd hbefore => ?_⟩
      · rw [hunf]
        simp only [true_iff]
        exact ⟨0, by omega, by simpa using h0⟩
      · exact absurd (by simpa using hc 0 (by omega)) h0
      · have hk0 : k = 0 := by
          by_contra hne
          exact h0 (by simpa using hbefore 0 (by omega))
        rw [hunf, hk0]

/-- C8 (confirmed): `flash_erase_check` scans the full 512 KiB range 16
bits at a time and reports dirty exactly when some of the 262144 words
differs from the erased pattern `0xFFFF`; it short-circuits, returning
after reading `k+1` words when the first mismatch is at word index `k`, and
reports clean only after reading all 262144 words. -/
theorem claim_C8 (mem : Nat → Nat) (s0 : ScState) :
    ((flash_erase_check mem s0).1.1 = true ↔ ∃ k, k < 262144 ∧ mem k ≠ 0xFFFF) ∧
    ((∀ k, k < 262144 → mem k = 0xFFFF) → (flash_erase_check mem s0).1.2 = 262144) ∧
    (∀ k, k < 262144 → mem k ≠ 0xFFFF → (∀ j, j < k → mem j = 0xFFFF) →
      (flash_erase_check mem s0).1.2 = k + 1) := by
  have h := erase_check_go_spec mem (256 * 1024) 0
  simp only [Nat.zero_add] at h
  have e : (flash_erase_check mem s0).1 = erase_check_go mem 0 (256 * 1024) := rfl
  rw [e]
  exact h

/-- Witness for C8: with the first dirty word at index 5, the scan reports
dirty after 6 reads; on fully erased contents it reports clean after all
262144 reads. -/
theorem claim_C8_witness :
    (flash_erase_check (fun k => if k = 5 then 0 else 0xFFFF)
        ⟨true, MAPPED_SDRAM, true, false⟩).1.1 = true ∧
    (flash_erase_check (fun k => if k = 5 then 0 else 0xFFFF)
        ⟨true, MAPPED_SDRAM, true, false⟩).1.2 = 6 ∧
    (flash_erase_check (fun _ => 0xFFFF) ⟨true, MAPPED_SDRAM, true, false⟩).1.2 = 262144 := by
  have h1 := claim_C8 (fun k => if k = 5 then 0 else 0xFFFF) ⟨true, MAPPED_SDRAM, true, false⟩
  have h2 := claim_C8 (fun _ => 0xFFFF) ⟨true, MAPPED_SDRAM, true, false⟩
  refine ⟨h1.1.mpr ⟨5, by omega, by simp⟩, h1.2.2 5 (by omega) (by simp)
    (fun j hj => by simp [show j ≠ 5 from by omega]), h2.2.1 (fun k _ => rfl)⟩

/-- Unfolding equation for one iteration of the word loop, phrased with
`word_fails`. -/
theorem flash_write_go_succ (dev : Nat → Nat → Bool × Nat) (buf : Nat → Nat)
    (size i n : Nat) :
    flash_write_go dev buf size i (n + 1) =
      if i < size then
        (if word_fails dev buf i then (false, [i / 2])
         else ((flash_write_go dev buf size (i + 2) n).1,
               i / 2 :: (flash_write_go dev buf size (i + 2) n).2))
      else (true, []) := by
  simp only [flash_write_go, word_fails]

/-- If no word in the remaining range fails, the loop completes and issues
a program sequence for every remaining word, in ascending order. -/
theorem flash_write_go_ok (dev : Nat → Nat → Bool × Nat) (buf : Nat → Nat) (size : Nat) :
    ∀ fuel i, size ≤ i + 2 * fuel → i % 2 = 0 →
      (∀ j, j % 2 = 0 → i ≤ j → j < size → ¬ word_fails dev buf j) →
      flash_write_go dev buf size i fuel
        = (true, List.range' (i / 2) ((size - i + 1) / 2)) := by
  intro fuel
  induction fuel with
  | zero =>
    intro i hle _ _
    have hz : (size - i + 1) / 2 = 0 := by omega
    simp [flash_write_go, hz]
  | succ n ih =>
    intro i hle hev hok
    rw [flash_write_go_succ]
    by_cases hi : i < size
    · rw [if_pos hi, if_neg (hok i hev (Nat.le_refl i) hi)]
      rw [ih (i + 2) (by omega) (by omega)
        (fun j hjev hij hjs => hok j hjev (by omega) hjs)]
      have e1 : (i + 2) / 2 = i / 2 + 1 := by omega
      have e2 : (size - i + 1) / 2 = (size - (i + 2) + 1) / 2 + 1 := by omega
      rw [e1, e2, List.range'_succ]
    · rw [if_neg hi]
      have hz : (size - i + 1) / 2 = 0 := by omega
      rw [hz]
      rfl

/-- If the word at byte index `j` is the first failing word at or after
`i`, the loop aborts there with failure, having issued program sequences
exactly for the words up to and including `j` — and none after. -/
theorem flash_write_go_fail (dev : Nat → Nat → Bool × Nat) (buf : Nat → Nat) (size : Nat) :
    ∀ fuel i j, size ≤ i + 2 * fuel → i % 2 = 0 → j % 2 = 0 → i ≤ j → j < size →
      word_fails dev buf j →
      (∀ j', j' % 2 = 0 → i ≤ j' → j' < j → ¬ word_fails dev buf j') →
      flash_write_go dev buf size i fuel
        = (false, List.range' (i / 2) ((j - i) / 2 + 1)) := by
  intro fuel
  induction fuel with
  | zero => intro i j hle _ _ hij hjs _ _; omega
  | succ n ih =>
    intro i j hle hev hjev hij hjs hfail hbefore
    have hi : i < size := by omega
    rw [flash_write_go_succ, if_pos hi]
    by_cases hji : j = i
    · subst hji
      rw [if_pos hfail]
      have e : (j - j) / 2 + 1 = 1 := by omega
      rw [e, List.range'_succ]
      simp
    · have hnf : ¬ word_fails dev buf i := hbefore i hev (Nat.le_refl i) (by omega)
      rw [if_neg hnf]
      rw [ih (i + 2) j (by omega) (by omega) hjev (by omega) hjs hfail
        (fun j' hj'ev hij' hj'j => hbefore j' hj'ev (by omega) hj'j)]
      have e1 : (i + 2) / 2 = i / 2 + 1 := by omega
      have e2 : (j - i) / 2 + 1 = ((j - (i + 2)) / 2 + 1) + 1 := by omega
      rw [e1, e2]
      simp [List.range'_succ]

/-- C6 (confirmed): `flash_write` processes 16-bit words in ascending
address order; if no word's poll times out and every readback matches, it
returns success having programmed every word (word indices `0` to
`⌈size/2⌉-1` in order); and at the first word whose poll times out or
whose readback mismatches it returns failure immediately, with program
sequences issued exactly for the words up to and including the failing one
and for no later word. -/
theorem claim_C6 (dev : Nat → Nat → Bool × Nat) (buf : Nat → Nat) (size : Nat)
    (s0 : ScState) :
    ((∀ j, j % 2 = 0 → j < size → ¬ word_fails dev buf j) →
      (flash_write dev buf size s0).1 = (true, List.range ((size + 1) / 2))) ∧
    (∀ j, j % 2 = 0 → j < size → word_fails dev buf j →
      (∀ j', j' % 2 = 0 → j' < j → ¬ word_fails dev buf j') →
      (flash_write dev buf size s0).1 = (false, List.range (j / 2 + 1))) := by
  have hfw : (flash_write dev buf size s0).1 = flash_write_go dev buf size 0 size := rfl
  constructor
  · intro hok
    rw [hfw, flash_write_go_ok dev buf size size 0 (by omega) (by omega)
      (fun j hjev _ hjs => hok j hjev hjs)]
    rw [List.range_eq_range']
    norm_num
  · intro j hjev hjs hfail hbefore
    rw [hfw, flash_write_go_fail dev buf size size 0 j (by omega) (by omega) hjev
      (by omega) hjs hfail (fun j' hj'ev _ hj'j => hbefore j' hj'ev hj'j)]
    rw [List.range_eq_range']
    norm_num

/-- Witness for C6: with a well-behaved device every word of a 6-byte
buffer is programmed and the operation succeeds; with a device whose word 1
reads back wrongly the operation fails having programmed only words 0 and
1. -/
theorem claim_C6_witness :
    (flash_write (fun _ v => (false, v)) (fun i => i) 6
        ⟨false, MAPPED_FIRMWARE, false, false⟩).1 = (true, [0, 1, 2]) ∧
    (flash_write (fun w v => (false, if w = 1 then 0 else v)) (fun i => i) 6
        ⟨false, MAPPED_FIRMWARE, false, false⟩).1 = (false, [0, 1]) := by
  constructor
  · rw [(claim_C6 (fun _ v => (false, v)) (fun i => i) 6 _).1
      (fun j _ _ => by simp [word_fails])]
    rfl
  · rw [(claim_C6 (fun w v => (false, if w = 1 then 0 else v)) (fun i => i) 6 _).2 2
      (by omega) (by omega) (by decide)
      (fun j' hj'ev hj'j => by
        have hz : j' = 0 := by omega
        subst hz
        decide)]
    rfl

/-- Every offset in the reads list is at most `size` (the offset `size`
itself can occur: the `buf[i+1]` read of a final iteration at
`i = size - 1`). -/
theorem flash_write_reads_go_le (size : Nat) :
    ∀ fuel i, ∀ o ∈ flash_write_reads_go size i fuel, o ≤ size := by
  intro fuel
  induction fuel with
  | zero => intro i o ho; simp [flash_write_reads_go] at ho
  | succ n ih =>
    intro i o ho
    by_cases hi : i < size
    · rw [show flash_write_reads_go size i (n + 1)
          = i :: (i + 1) :: flash_write_reads_go size (i + 2) n from by
        simp [flash_write_reads_go, hi]] at ho
      simp only [List.mem_cons] at ho
      rcases ho with rfl | rfl | ho
      · omega
      · omega
      · exact ih (i + 2) o ho
    · simp [flash_write_reads_go, hi] at ho

/-- When the number of remaining bytes is even, every read offset stays
strictly inside the buffer. -/
theorem flash_write_reads_go_lt (size : Nat) :
    ∀ fuel i, (size - i) % 2 = 0 → ∀ o ∈ flash_write_reads_go size i fuel, o < size := by
  intro fuel
  induction fuel with
  | zero => intro i _ o ho; simp [flash_write_reads_go] at ho
  | succ n ih =>
    intro i hpar o ho
    by_cases hi : i < size
    · rw [show flash_write_reads_go size i (n + 1)
          = i :: (i + 1) :: flash_write_reads_go size (i + 2) n from by
        simp [flash_write_reads_go, hi]] at ho
      simp only [List.mem_cons] at ho
      rcases ho with rfl | rfl | ho
      · omega
      · omega
      · exact ih (i + 2) (by omega) o ho
    · simp [flash_write_reads_go, hi] at ho

/-- When the number of remaining bytes is odd, the offset `size` itself is
read (by the `buf[i+1]` access of the final iteration). -/
theorem flash_write_reads_go_mem (size : Nat) :
    ∀ fuel i, size ≤ i + 2 * fuel → i < size → (size - 1 - i) % 2 = 0 →
      size ∈ flash_write_reads_go size i fuel := by
  intro fuel
  induction fuel with
  | zero => intro i hle hi _; omega
  | succ n ih =>
    intro i hle hi hpar
    rw [show flash_write_reads_go size i (n + 1)
        = i :: (i + 1) :: flash_write_reads_go size (i + 2) n from by
      simp [flash_write_reads_go, hi]]
    by_cases hlast : i = size - 1
    · have he : i + 1 = size := by omega
      simp [he]
    · have hrec := ih (i + 2) (by omega) (by omega) (by omega)
      simp only [List.mem_cons]
      exact Or.inr (Or.inr hrec)

/-- The word loop reads the input buffer only at the offsets in the reads
list: two buffers agreeing there produce identical loop results. -/
theorem flash_write_go_ext (dev : Nat → Nat → Bool × Nat) (size : Nat) :
    ∀ fuel i buf buf',
      (∀ o ∈ flash_write_reads_go size i fuel, buf o = buf' o) →
      flash_write_go dev buf size i fuel = flash_write_go dev buf' size i fuel := by
  intro fuel
  induction fuel with
  | zero => intro i buf buf' _; simp [flash_write_go]
  | succ n ih =>
    intro i buf buf' h
    by_cases hi : i < size
    · rw [show flash_write_reads_go size i (n + 1)
          = i :: (i + 1) :: flash_write_reads_go size (i + 2) n from by
        simp [flash_write_reads_go, hi]] at h
      have hb0 : buf i = buf' i := h i (by simp)
      have hb1 : buf (i + 1) = buf' (i + 1) := h (i + 1) (by simp)
      have hw : flash_word buf i = flash_word buf' i := by
        simp [flash_word, hb0, hb1]
      have hiff : word_fails dev buf i ↔ word_fails dev buf' i := by
        unfold word_fails
        rw [hw]
      have hrec := ih (i + 2) buf buf' (fun o ho => h o (by simp [ho]))
      rw [flash_write_go_succ, flash_write_go_succ, if_pos hi, if_pos hi, hrec]
      simp only [hiff]
    · rw [flash_write_go_succ, flash_write_go_succ, if_neg hi, if_neg hi]

/-- C10 (confirmed): the offsets `flash_write`'s word assembly reads from
the input buffer are `i` and `i+1` for each even `i < size`
(`flash_write_reads`), and the loop's result depends on the buffer only
through those offsets. When `size` is even every read offset lies in
`[0, size)`; when `size` is odd, the final word assembly reads offset
`size`, one past the end of the buffer. -/
theorem claim_C10 (size : Nat) :
    (size % 2 = 0 → ∀ o ∈ flash_write_reads size, o < size) ∧
    (∀ o ∈ flash_write_reads size, o ≤ size) ∧
    (size % 2 = 1 → size ∈ flash_write_reads size) ∧
    (∀ dev buf buf' s0, (∀ o ∈ flash_write_reads size, buf o = buf' o) →
      flash_write dev buf size s0 = flash_write dev buf' size s0) := by
  refine ⟨fun hev => flash_write_reads_go_lt size size 0 (by omega),
          flash_write_reads_go_le size size 0,
          fun hodd => flash_write_reads_go_mem size size 0 (by omega) (by omega) (by omega),
          fun dev buf buf' s0 h => ?_⟩
  unfold flash_write
  rw [flash_write_go_ext dev size size 0 buf buf' h]

/-- Witness for C10: for the even size 4 every read offset is in bounds;
for the odd size 5 the out-of-bounds offset 5 is read. -/
theorem claim_C10_witness :
    (∀ o ∈ flash_write_reads 4, o < 4) ∧ 5 ∈ flash_write_reads 5 :=
  ⟨(claim_C10 4).1 rfl, (claim_C10 5).2.2.1 rfl⟩

set_option maxRecDepth 100000 in
set_option maxHeartbeats 2000000 in
/-- C4 (confirmed): `sha256sum` is deterministic (a pure function) and
matches standard SHA-256 on the specified vectors: the empty message gives
the well-known digest `e3b0c442…`, `"abc"` gives its published digest, and
messages of exactly 55, 56 and 57 bytes (here `'a'` repeated) produce the
same digest as the independently spec-modelled reference implementation
`sha256_ref`, the 55/56-byte boundary exercising both sides of the
extra-block condition. Digest bytes are emitted word-by-word big-endian;
the model composes the little-endian host's load/store with `bswap32`,
which coincides with the big-endian host's direct access, so the byte
stream is host-independent. -/
theorem claim_C4 :
    sha256sum [] =
      [0xe3, 0xb0, 0xc4, 0x42, 0x98, 0xfc, 0x1c, 0x14, 0x9a, 0xfb, 0xf4, 0xc8,
       0x99, 0x6f, 0xb9, 0x24, 0x27, 0xae, 0x41, 0xe4, 0x64, 0x9b, 0x93, 0x4c,
       0xa4, 0x95, 0x99, 0x1b, 0x78, 0x52, 0xb8, 0x55] ∧
    sha256sum [0x61, 0x62, 0x63] =
      [0xba, 0x78, 0x16, 0xbf, 0x8f, 0x01, 0xcf, 0xea, 0x41, 0x41, 0x40, 0xde,
       0x5d, 0xae, 0x22, 0x23, 0xb0, 0x03, 0x61, 0xa3, 0x96, 0x17, 0x7a, 0x9c,
       0xb4, 0x10, 0xff, 0x61, 0xf2, 0x00, 0x15, 0xad] ∧
    sha256sum (List.replicate 55 0x61) = sha256_ref (List.replicate 55 0x61) ∧
    sha256sum (List.replicate 56 0x61) = sha256_ref (List.replicate 56 0x61) ∧
    sha256sum (List.replicate 57 0x61) = sha256_ref (List.replicate 57 0x61) :=
  ⟨by decide, by decide, by decide, by decide, by decide⟩

/-- The block loop consumes all full 64-byte blocks: given enough fuel, the
remaining partial block has length `msg.length % 64`. -/
theorem sha256_chunks_go_rest_length :
    ∀ fuel msg state, msg.length ≤ fuel →
      (sha256_chunks_go state fuel msg).2.length = msg.length % 64 := by
  intro fuel
  induction fuel with
  | zero =>
    intro msg state hle
    have hz : msg.length = 0 := by omega
    simp [sha256_chunks_go, hz]
  | succ n ih =>
    intro msg state hle
    by_cases h64 : 64 ≤ msg.length
    · have hrec := ih (msg.drop 64) (sha256_transform state (msg.take 64))
        (by simp only [List.length_drop]; omega)
      simp only [sha256_chunks_go, if_pos h64]
      rw [hrec]
      simp only [List.length_drop]
      omega
    · simp only [sha256_chunks_go, if_neg h64]
      omega

/-- Where the `length << 3` truncation cannot bite — messages of fewer than
`2^29` bytes — the length field the code emits does equal the 64-bit
big-endian bit length of the message. -/
theorem bitlenBytes_correct {len : Nat} (h : len < 2 ^ 29) :
    bitlenBytes len = be64bytes (8 * len) := by
  unfold bitlenBytes be64bytes
  have h8 : len <<< 3 = 8 * len := by
    rw [Nat.shiftLeft_eq]
    ring
  have hlt : 8 * len < M32 := by
    unfold M32
    omega
  rw [h8, Nat.mod_eq_of_lt hlt]
  simp [Nat.shiftRight_eq_div_pow]

/-- C3 (code-bug evidence): the padding does append a single `0x80`, then
zero fill, then an 8-byte length field, inserting the extra block exactly
when at least 56 bytes of the final partial block are message bytes — but
the length field holds `length << 3` computed in 32-bit `unsigned`
arithmetic (source line 95), not the 64-bit big-endian bit length of the
message. Concretely, for a message of `2^29` zero bytes (true bit length
`2^32`): the block loop leaves an empty remainder; the single tail block is
`0x80` followed by 63 zero bytes, i.e. its length field is all-zero; while
the 64-bit big-endian encoding of the true bit length `8 * 2^29` is
`[0,0,0,1,0,0,0,0]`. -/
theorem claim_C3_bitlen_truncated :
    (sha256_chunks sha256_kinit (List.replicate (2 ^ 29) 0)).2 = [] ∧
    sha256_tail_blocks [] (2 ^ 29) = [0x80 :: List.replicate 63 0] ∧
    bitlenBytes (2 ^ 29) = List.replicate 8 0 ∧
    be64bytes (8 * 2 ^ 29) = [0, 0, 0, 1, 0, 0, 0, 0] ∧
    bitlenBytes (2 ^ 29) ≠ be64bytes (8 * 2 ^ 29) := by
  refine ⟨?_, by decide, by decide, by decide, by decide⟩
  have h2 : (sha256_chunks sha256_kinit (List.replicate (2 ^ 29) 0)).2.length
      = (List.replicate (2 ^ 29) 0).length % 64 :=
    sha256_chunks_go_rest_length (List.replicate (2 ^ 29) 0).length
      (List.replicate (2 ^ 29) 0) sha256_kinit (Nat.le_refl _)
  rw [List.length_replicate] at h2
  exact List.length_eq_zero.mp (by rw [h2]; norm_num)

/-- Witness for C5 at a concrete entry state. -/
theorem claim_C5_witness :
    (dump_copy_state ⟨true, MAPPED_SDRAM, false, false⟩).mapped = MAPPED_FIRMWARE ∧
    (dump_copy_state ⟨true, MAPPED_SDRAM, false, false⟩).writeAccess = true :=
  ⟨(claim_C5 (fun _ => 0) ⟨true, MAPPED_SDRAM, false, false⟩).1,
   (claim_C5 (fun _ => 0) ⟨true, MAPPED_SDRAM, false, false⟩).2.1⟩
